import Mathlib

/-!
Shallow embedding of the forklore repository's in-scope algorithmic logic:

* `src/src/lib/statsUtils.ts` — StatsDeriver: `calculateTotalDistance`,
  `extractYear`, `calculateTimelineSpan`, `countStops`.
* Map component (GeoClusterer / RouteBuilder): `computeClusters`,
  `updateRoute`.

Coordinates and distances are modelled as rationals (`ℚ`).  The two
floating-point trigonometric distance routines used by the code —
`getDistanceFromLatLonInKm` (Haversine, R = 6371 km) in statsUtils and
`turf.distance` in the map component — are pure numeric functions of the
four coordinates; they are passed as explicit parameters (`DistFn`) so the
surrounding logic is embedded exactly while the transcendental kernel,
which has no exact rational form, stays abstract.  All structural claims
are proved for every distance function, hence in particular for the real
Haversine kernels.
-/

/-- One narrative step, from the `Step` interface of `statsUtils.ts`:
`year`, optional `lat`/`lng`, `title`, `description`. -/
structure Step where
  year : String
  lat : Option ℚ
  lng : Option ℚ
  title : String
  description : String
deriving DecidableEq, Repr

/-- A four-argument coordinate-pair distance function, standing for the
floating-point Haversine kernels (`getDistanceFromLatLonInKm` or
`turf.distance`). -/
abbrev DistFn := ℚ → ℚ → ℚ → ℚ → ℚ

/-- The filter predicate `step.lat !== null && step.lng !== null` used by
`calculateTotalDistance` and `countStops`. -/
def isLocated (s : Step) : Bool := s.lat.isSome && s.lng.isSome

/-- JavaScript `Math.round`: round half toward positive infinity,
`Math.round x = ⌊x + 1/2⌋`. -/
def jsRound (q : ℚ) : ℤ := ⌊q + 1/2⌋

/-- The summation loop of `calculateTotalDistance`: over the filtered list
`validSteps`, for each `i` add the distance between element `i` and
element `i+1` when all four coordinates are non-null (the loop re-checks
nullness even though the filter guarantees it). -/
def pairSum (d : DistFn) : List Step → ℚ
  | a :: b :: rest =>
    (match a.lat, a.lng, b.lat, b.lng with
     | some lat1, some lon1, some lat2, some lon2 => d lat1 lon1 lat2 lon2
     | _, _, _, _ => 0) + pairSum d (b :: rest)
  | _ => 0

/-- Function `calculateTotalDistance` from `statsUtils.ts`: filter to located steps,
sum consecutive-pair distances, then `Math.round(total / 100) * 100`. -/
def calculateTotalDistance (d : DistFn) (steps : List Step) : ℤ :=
  jsRound (pairSum d (steps.filter isLocated) / 100) * 100

/-- Function `countStops` from `statsUtils.ts`: number of steps with non-null
coordinates. -/
def countStops (steps : List Step) : ℕ :=
  (steps.filter isLocated).length

/-! ### extractYear

`extractYear` lowercases the input and tries three regexes in order:
`/(\d{1,4})\s*(bce|bc)/i`, `/(\d{1,2})(st|nd|rd|th)\s*century/i`,
`/\d{3,4}/`.  The matchers below implement JavaScript regex semantics for
these three patterns (leftmost match, greedy quantifier with
backtracking) on the lowercased character list.  Backtracking over the
digit-count quantifier collapses: a shorter-than-greedy digit run leaves
the next character a digit, which can start none of the literal tails, so
only the greedy count `min maxRun run` can succeed at a given start
position. -/

/-- Numeric value of a decimal digit character. -/
def digitVal (c : Char) : ℕ := c.toNat - '0'.toNat

/-- JavaScript `parseInt(s, 10)` on a digit string. -/
def parseDigits (ds : List Char) : ℕ := ds.foldl (fun a c => 10 * a + digitVal c) 0

/-- JavaScript regex `\s`, restricted to its ASCII members (the only ones
the year labels use). -/
def isWs (c : Char) : Bool :=
  c == ' ' || c == '\t' || c == '\n' || c == '\r' || c == '\x0b' || c == '\x0c'

/-- Greedy `\s*`. -/
def skipWs (cs : List Char) : List Char := cs.dropWhile isWs

/-- Length of the leading digit run at this position (`\d` repetition). -/
def leadDigits (cs : List Char) : ℕ := (cs.takeWhile Char.isDigit).length

/-- The tail `\s*(bce|bc)` of the BCE pattern. -/
def bceTail (cs : List Char) : Bool :=
  ['b', 'c', 'e'].isPrefixOf (skipWs cs) || ['b', 'c'].isPrefixOf (skipWs cs)

/-- Leftmost match of `/(\d{1,4})\s*(bce|bc)/` on a lowercased character
list, returning the captured digit group's value. -/
def matchBCE : List Char → Option ℕ
  | [] => none
  | c :: rest =>
    let run := leadDigits (c :: rest)
    if run ≥ 1 ∧ bceTail ((c :: rest).drop (min 4 run)) then
      some (parseDigits ((c :: rest).take (min 4 run)))
    else matchBCE rest

/-- The tail `(st|nd|rd|th)\s*century` of the century pattern. -/
def centuryTail (cs : List Char) : Bool :=
  (['s', 't'].isPrefixOf cs || ['n', 'd'].isPrefixOf cs ||
   ['r', 'd'].isPrefixOf cs || ['t', 'h'].isPrefixOf cs) &&
  ['c', 'e', 'n', 't', 'u', 'r', 'y'].isPrefixOf (skipWs (cs.drop 2))

/-- Leftmost match of `/(\d{1,2})(st|nd|rd|th)\s*century/` on a lowercased
character list, returning the captured century number. -/
def matchCentury : List Char → Option ℕ
  | [] => none
  | c :: rest =>
    let run := leadDigits (c :: rest)
    if run ≥ 1 ∧ centuryTail ((c :: rest).drop (min 2 run)) then
      some (parseDigits ((c :: rest).take (min 2 run)))
    else matchCentury rest

/-- Leftmost match of `/\d{3,4}/`: first position with at least three
leading digits; greedily take up to four. -/
def matchYear : List Char → Option ℕ
  | [] => none
  | c :: rest =>
    let run := leadDigits (c :: rest)
    if run ≥ 3 then some (parseDigits ((c :: rest).take (min 4 run)))
    else matchYear rest

/-- Lowercase a string to a character list (`yearString.toLowerCase()`). -/
def lowerChars (s : String) : List Char := s.data.map Char.toLower

/-- Function `extractYear` from `statsUtils.ts`: empty string is falsy and yields
null; otherwise try the BCE pattern (negated), then the century pattern
(`(century − 1) * 100 + 50`), then a plain 3–4 digit year, else null. -/
def extractYear (s : String) : Option ℤ :=
  if s = "" then none
  else
    match matchBCE (lowerChars s) with
    | some n => some (-(n : ℤ))
    | none =>
      match matchCentury (lowerChars s) with
      | some c => some (((c : ℤ) - 1) * 100 + 50)
      | none =>
        match matchYear (lowerChars s) with
        | some n => some (n : ℤ)
        | none => none

/-- The `{ years, fallbackEra }` record returned by
`calculateTimelineSpan`. -/
structure TimelineSpan where
  years : Option ℤ
  fallbackEra : String
deriving DecidableEq, Repr

/-- Function `calculateTimelineSpan` from `statsUtils.ts`: empty list yields
`{ years: null, fallbackEra: "Unknown" }`; otherwise parse the first and
last steps' year labels; if both parse, the span is the absolute
difference with the first label as fallback era, else null years with the
first label as fallback era. -/
def calculateTimelineSpan (steps : List Step) : TimelineSpan :=
  match steps.head?, steps.getLast? with
  | some first, some last =>
    match extractYear first.year, extractYear last.year with
    | some f, some l => ⟨some |l - f|, first.year⟩
    | _, _ => ⟨none, first.year⟩
  | _, _ => ⟨none, "Unknown"⟩

/-! ### GeoClusterer

`computeClusters` from the map component: a single pass over the step
list in index order; located steps join the first existing cluster (in
creation order) whose stored coordinate is within the 20 km threshold
(`turf.distance(step, cluster) < CLUSTER_DISTANCE_KM`, threshold strict),
else found a new cluster at their own coordinates.  The `turf.distance`
call takes GeoJSON points `[lng, lat]`, so the distance parameter is
applied as `d stepLng stepLat clusterLng clusterLat`. -/

/-- A cluster record `{ indices, lat, lng }`. -/
structure Cluster where
  indices : List ℕ
  lat : ℚ
  lng : ℚ
deriving DecidableEq, Repr

/-- Constant `CLUSTER_DISTANCE_KM = 20`. -/
def CLUSTER_DISTANCE_KM : ℚ := 20

/-- The `for (const cluster of clusters) { ... break }` scan: push `index`
onto the first cluster within range; `none` when no cluster is in range
(`addedToCluster` stays false). -/
def addToCluster (d : DistFn) (lat lng : ℚ) (index : ℕ) :
    List Cluster → Option (List Cluster)
  | [] => none
  | c :: rest =>
    if d lng lat c.lng c.lat < CLUSTER_DISTANCE_KM then
      some ({ c with indices := c.indices ++ [index] } :: rest)
    else
      match addToCluster d lat lng index rest with
      | some rest' => some (c :: rest')
      | none => none

/-- One iteration of the `steps.forEach` body of `computeClusters`:
unlocated steps return early; located steps join the first in-range
cluster or append a fresh cluster `{ indices: [index], lat, lng }`. -/
def clusterStep (d : DistFn) (clusters : List Cluster) (index : ℕ)
    (step : Step) : List Cluster :=
  match step.lat, step.lng with
  | some lat, some lng =>
    match addToCluster d lat lng index clusters with
    | some cs => cs
    | none => clusters ++ [⟨[index], lat, lng⟩]
  | _, _ => clusters

/-- Function `computeClusters`: fold the forEach body over the indexed step list,
starting from no clusters. -/
def computeClusters (d : DistFn) (steps : List Step) : List Cluster :=
  steps.enum.foldl (fun clusters p => clusterStep d clusters p.1 p.2) []

/-- The spec's statement of the same scan, written from its words: find
the index of the first cluster whose representative coordinate is within
the threshold, scanning clusters in creation order, and append the step
index to that cluster only; otherwise append a new cluster founded at the
step's own coordinates. -/
def clusterStepSpec (d : DistFn) (clusters : List Cluster) (index : ℕ)
    (step : Step) : List Cluster :=
  match step.lat, step.lng with
  | some lat, some lng =>
    match clusters.findIdx? (fun c => d lng lat c.lng c.lat < CLUSTER_DISTANCE_KM) with
    | some i => clusters.modify (fun c => { c with indices := c.indices ++ [index] }) i
    | none => clusters ++ [⟨[index], lat, lng⟩]
  | _, _ => clusters

/-- Spec-side clustering: the same fold driven by `clusterStepSpec`. -/
def computeClustersSpec (d : DistFn) (steps : List Step) : List Cluster :=
  steps.enum.foldl (fun clusters p => clusterStepSpec d clusters p.1 p.2) []

/-- Indices of the located steps, in order. -/
def locatedIndices (steps : List Step) : List ℕ :=
  (steps.enum.filter (fun p => isLocated p.2)).map Prod.fst

/-! ### RouteBuilder

`updateRoute` from the map component: recompute the clusters, map every
clustered step index to its cluster's `[lng, lat]` coordinate, walk the
steps in order emitting each cluster coordinate the first time its
`"lng,lat"` key is seen, then (when at least two coordinates result)
replace the straight line with concatenated great-circle arcs, dropping
each non-final arc's last point; any interpolation error keeps the
straight coordinate list.  String keys compare equal exactly when the
coordinate pairs do, so the seen-set is modelled on the pairs. -/

/-- The `stepToClusterCoord` map: JS `Map.set` in cluster order, later
writes winning, modelled as last-binding lookup over the written pairs. -/
def stepToClusterCoord (clusters : List Cluster) (idx : ℕ) : Option (ℚ × ℚ) :=
  ((clusters.flatMap fun c => c.indices.map fun i => (i, (c.lng, c.lat))).reverse.find?
    fun p => p.1 == idx).map Prod.snd

/-- The coordinate-emitting walk of `updateRoute`: located steps whose
index is in the map contribute their cluster coordinate when not yet
seen. -/
def routeCoordsAux (clusters : List Cluster) :
    List (ℕ × Step) → List (ℚ × ℚ) → List (ℚ × ℚ) → List (ℚ × ℚ)
  | [], _, acc => acc
  | (index, step) :: rest, seen, acc =>
    match step.lat, step.lng with
    | some _, some _ =>
      match stepToClusterCoord clusters index with
      | some coord =>
        if coord ∈ seen then routeCoordsAux clusters rest seen acc
        else routeCoordsAux clusters rest (coord :: seen) (acc ++ [coord])
      | none => routeCoordsAux clusters rest seen acc
    | _, _ => routeCoordsAux clusters rest seen acc

/-- The deduplicated pre-interpolation coordinate list of `updateRoute`. -/
def routeCoordinates (d : DistFn) (steps : List Step) : List (ℚ × ℚ) :=
  routeCoordsAux (computeClusters d steps) steps.enum [] []

/-- A great-circle interpolation routine: returns the arc's coordinate
list, or `none` when `turf.greatCircle` throws. -/
abbrev InterpFn := (ℚ × ℚ) → (ℚ × ℚ) → Option (List (ℚ × ℚ))

/-- The arc-concatenation loop inside the `try` block: interpolate each
consecutive pair, dropping the last point of every arc but the final
one; an exception anywhere aborts the whole loop. -/
def buildArcs (interp : InterpFn) : List (ℚ × ℚ) → Option (List (ℚ × ℚ))
  | a :: b :: rest => do
    let arc ← interp a b
    match rest with
    | [] => pure arc
    | _ =>
      let tail ← buildArcs interp (b :: rest)
      pure (arc.dropLast ++ tail)
  | _ => pure []

/-- The geometry `updateRoute` hands to the map source: the straight
deduplicated coordinates, replaced by the concatenated arcs when there
are at least two coordinates and interpolation succeeds; a caught
interpolation error falls back to the straight list. -/
def updateRouteGeometry (interp : InterpFn) (d : DistFn) (steps : List Step) :
    List (ℚ × ℚ) :=
  if (routeCoordinates d steps).length ≥ 2 then
    match buildArcs interp (routeCoordinates d steps) with
    | some allCoords => allCoords
    | none => routeCoordinates d steps
  else routeCoordinates d steps

/-! ### Spec-side restatements used by the refinement claims -/

/-- The located steps' coordinate pairs `(lat, lng)`, in original order —
the spec's "filter to located steps only, preserving original order". -/
def locatedCoords (steps : List Step) : List (ℚ × ℚ) :=
  steps.filterMap fun s =>
    match s.lat, s.lng with
    | some lat, some lng => some (lat, lng)
    | _, _ => none

/-- Sum of a distance function over each consecutive pair of a coordinate
list — the spec's "sum great-circle distance between each consecutive
pair of located steps". -/
def adjacentSum (d : DistFn) : List (ℚ × ℚ) → ℚ
  | a :: b :: rest => d a.1 a.2 b.1 b.2 + adjacentSum d (b :: rest)
  | _ => 0

/-- The spec's statement of `computeTotalDistance`: consecutive-pair sum
over the located coordinates, rounded to the nearest multiple of 100. -/
def totalDistanceSpec (d : DistFn) (steps : List Step) : ℤ :=
  jsRound (adjacentSum d (locatedCoords steps) / 100) * 100

/-- The lat/lng fields of a located step (defaulting at 0, never hit on
located steps). -/
def stepCoord (s : Step) : ℚ × ℚ := (s.lat.getD 0, s.lng.getD 0)

/-- The three-step end-to-end scenario of the spec's §8: `"3000 BCE"`
located at A, `"1850"` unlocated, `"1960"` located at B. -/
def endToEndSteps (alat alng blat blng : ℚ) : List Step :=
  [⟨"3000 BCE", some alat, some alng, "", ""⟩,
   ⟨"1850", none, none, "", ""⟩,
   ⟨"1960", some blat, some blng, "", ""⟩]

/-! ### Derived definitions used by the proofs -/

/-- The representative coordinate of a cluster, as the `(lng, lat)` pair
used both by the distance test and by the route keys. -/
def rep (c : Cluster) : ℚ × ℚ := (c.lng, c.lat)

/-- The forEach fold of `computeClusters` over an arbitrary indexed pair
list, starting from arbitrary clusters. -/
def foldCl (d : DistFn) (acc : List Cluster) (ps : List (ℕ × Step)) : List Cluster :=
  ps.foldl (fun clusters p => clusterStep d clusters p.1 p.2) acc

/-- Any two clusters in creation order are separated: the later cluster's
representative is not within the threshold of the earlier one's. -/
def ClusterSep (d : DistFn) (cl : List Cluster) : Prop :=
  cl.Pairwise fun a b => ¬ d b.lng b.lat a.lng a.lat < CLUSTER_DISTANCE_KM

/-- Each cluster's representative coordinate is the coordinate of its
founding step — the first entry of its member indices. -/
def Founded (steps : List Step) (cl : List Cluster) : Prop :=
  ∀ c ∈ cl, ∃ i r, c.indices = i :: r ∧
    ∃ s, steps[i]? = some s ∧ s.lat = some c.lat ∧ s.lng = some c.lng

/-- All clusters have nonempty member lists. -/
def NEIdx (cl : List Cluster) : Prop := ∀ c ∈ cl, c.indices ≠ []

/-- The per-step cluster coordinates of `updateRoute`'s walk before
deduplication: each located step whose index is in the cluster map
contributes its cluster's `[lng, lat]` coordinate. -/
def rawCoords (cl : List Cluster) : List (ℕ × Step) → List (ℚ × ℚ)
  | [] => []
  | (index, step) :: rest =>
    match step.lat, step.lng with
    | some _, some _ =>
      match stepToClusterCoord cl index with
      | some coord => coord :: rawCoords cl rest
      | none => rawCoords cl rest
    | _, _ => rawCoords cl rest

/-- The raw (pre-deduplication) route coordinate sequence. -/
def rawRouteCoords (d : DistFn) (steps : List Step) : List (ℚ × ℚ) :=
  rawCoords (computeClusters d steps) steps.enum

/-- First-occurrence deduplication against an already-seen set — the
spec's "append it to the output coordinate list and mark it emitted". -/
def dedupFirst (seen : List (ℚ × ℚ)) : List (ℚ × ℚ) → List (ℚ × ℚ)
  | [] => []
  | x :: xs => if x ∈ seen then dedupFirst seen xs else x :: dedupFirst (x :: seen) xs

/-! ## Supporting lemmas: StatsDeriver -/

lemma locatedCoords_eq (steps : List Step) :
    locatedCoords steps = (steps.filter isLocated).map stepCoord := by
  induction steps with
  | nil => rfl
  | cons s rest ih =>
    rcases hlat : s.lat with _ | a <;> rcases hlng : s.lng with _ | b <;>
      simp [locatedCoords, List.filterMap_cons, isLocated, hlat, hlng,
        List.filter_cons, stepCoord, ← ih]

lemma pairSum_eq_adjacentSum (d : DistFn) (l : List Step)
    (h : ∀ s ∈ l, isLocated s = true) :
    pairSum d l = adjacentSum d (l.map stepCoord) := by
  induction l with
  | nil => rfl
  | cons s rest ih =>
    cases rest with
    | nil => rfl
    | cons t rest' =>
      have hs := h s (by simp)
      have ht := h t (by simp)
      rcases hla : s.lat with _ | a
      · simp [isLocated, hla] at hs
      rcases hlb : s.lng with _ | b
      · simp [isLocated, hla, hlb] at hs
      rcases hlc : t.lat with _ | c
      · simp [isLocated, hlc] at ht
      rcases hld : t.lng with _ | e
      · simp [isLocated, hlc, hld] at ht
      have ih' := ih (fun x hx => h x (List.mem_cons_of_mem s hx))
      simp only [pairSum, hla, hlb, hlc, hld, List.map_cons, adjacentSum] at ih' ⊢
      rw [ih']
      simp [stepCoord, hla, hlb, hlc, hld]

lemma pairSum_short (d : DistFn) (l : List Step) (h : l.length ≤ 1) :
    pairSum d l = 0 := by
  match l, h with
  | [], _ => rfl
  | [s], _ => rfl

lemma filter_insertIdx_of_neg {α : Type} (p : α → Bool) (a : α) (ha : p a = false) :
    ∀ (l : List α) (i : ℕ), (l.insertIdx i a).filter p = l.filter p := by
  intro l
  induction l with
  | nil =>
    intro i
    cases i with
    | zero => simp [List.insertIdx, List.filter_cons, ha]
    | succ j => rfl
  | cons b rest ih =>
    intro i
    cases i with
    | zero => simp [List.insertIdx, List.filter_cons, ha]
    | succ j =>
      have : (b :: rest).insertIdx (j + 1) a = b :: rest.insertIdx j a := rfl
      rw [this, List.filter_cons, List.filter_cons, ih j]

/-! ## Supporting lemmas: GeoClusterer -/

lemma computeClusters_eq_foldCl (d : DistFn) (steps : List Step) :
    computeClusters d steps = foldCl d [] steps.enum := rfl

lemma foldCl_cons (d : DistFn) (acc : List Cluster) (p : ℕ × Step)
    (ps : List (ℕ × Step)) :
    foldCl d acc (p :: ps) = foldCl d (clusterStep d acc p.1 p.2) ps := rfl

lemma isLocated_iff (s : Step) :
    isLocated s = true ↔ ∃ lat lng, s.lat = some lat ∧ s.lng = some lng := by
  unfold isLocated
  rcases s.lat with _ | a <;> rcases s.lng with _ | b <;> simp

lemma addToCluster_eq_none {d : DistFn} {lat lng : ℚ} {i : ℕ} (cl : List Cluster) :
    addToCluster d lat lng i cl = none ↔
      ∀ c ∈ cl, ¬ d lng lat c.lng c.lat < CLUSTER_DISTANCE_KM := by
  induction cl with
  | nil => simp [addToCluster]
  | cons c rest ih =>
    unfold addToCluster
    by_cases h : d lng lat c.lng c.lat < CLUSTER_DISTANCE_KM
    · rw [if_pos h]
      simp [h]
    · rw [if_neg h]
      constructor
      · intro hnone x hx
        rcases List.mem_cons.mp hx with rfl | hx'
        · exact h
        · rcases hr : addToCluster d lat lng i rest with _ | r
          · exact (ih.mp hr) x hx'
          · rw [hr] at hnone
            exact absurd hnone (by simp)
      · intro hall
        have hr : addToCluster d lat lng i rest = none :=
          ih.mpr fun x hx => hall x (List.mem_cons_of_mem c hx)
        rw [hr]

lemma addToCluster_eq_some {d : DistFn} {lat lng : ℚ} {i : ℕ} :
    ∀ {cl cl' : List Cluster}, addToCluster d lat lng i cl = some cl' →
      ∃ pre c post, cl = pre ++ c :: post ∧
        cl' = pre ++ { c with indices := c.indices ++ [i] } :: post ∧
        (∀ a ∈ pre, ¬ d lng lat a.lng a.lat < CLUSTER_DISTANCE_KM) ∧
        d lng lat c.lng c.lat < CLUSTER_DISTANCE_KM := by
  intro cl
  induction cl with
  | nil => intro cl' h; exact absurd h (by simp [addToCluster])
  | cons c rest ih =>
    intro cl' h
    unfold addToCluster at h
    by_cases hd : d lng lat c.lng c.lat < CLUSTER_DISTANCE_KM
    · rw [if_pos hd] at h
      injection h with h
      exact ⟨[], c, rest, rfl, h.symm, by simp, hd⟩
    · rw [if_neg hd] at h
      rcases hr : addToCluster d lat lng i rest with _ | r
      · rw [hr] at h
        exact absurd h (by simp)
      · rw [hr] at h
        injection h with h
        obtain ⟨pre, c0, post, he, he', hall, hlt⟩ := ih hr
        refine ⟨c :: pre, c0, post, by rw [List.cons_append, he], ?_, ?_, hlt⟩
        · rw [← h, List.cons_append, he']
        · intro a ha
          rcases List.mem_cons.mp ha with rfl | ha'
          · exact hd
          · exact hall a ha'

lemma clusterStep_unlocated {d : DistFn} {acc : List Cluster} {i : ℕ} {s : Step}
    (h : isLocated s = false) : clusterStep d acc i s = s.lat.elim acc fun _ => acc := by
  rcases hlat : s.lat with _ | a <;> rcases hlng : s.lng with _ | b <;>
    simp_all [clusterStep, isLocated]

lemma clusterStep_of_unlocated {d : DistFn} {acc : List Cluster} {i : ℕ} {s : Step}
    (h : isLocated s = false) : clusterStep d acc i s = acc := by
  rw [clusterStep_unlocated h]
  rcases s.lat with _ | a <;> rfl

/-- Characterization of the located-step case of `clusterStep`: either the
step joined the first in-range cluster (everything before it out of
range), or no cluster was in range and a fresh cluster was appended. -/
lemma clusterStep_located {d : DistFn} (acc : List Cluster) {i : ℕ} {s : Step}
    {lat lng : ℚ} (hlat : s.lat = some lat) (hlng : s.lng = some lng) :
    (∃ pre c post, acc = pre ++ c :: post ∧
      clusterStep d acc i s = pre ++ { c with indices := c.indices ++ [i] } :: post ∧
      (∀ a ∈ pre, ¬ d lng lat a.lng a.lat < CLUSTER_DISTANCE_KM) ∧
      d lng lat c.lng c.lat < CLUSTER_DISTANCE_KM) ∨
    ((∀ a ∈ acc, ¬ d lng lat a.lng a.lat < CLUSTER_DISTANCE_KM) ∧
      clusterStep d acc i s = acc ++ [⟨[i], lat, lng⟩]) := by
  have hstep : clusterStep d acc i s =
      match addToCluster d lat lng i acc with
      | some cs => cs
      | none => acc ++ [⟨[i], lat, lng⟩] := by
    unfold clusterStep
    rw [hlat, hlng]
  rcases hr : addToCluster d lat lng i acc with _ | cl'
  · rw [hr] at hstep
    exact Or.inr ⟨(addToCluster_eq_none acc).mp hr, hstep⟩
  · rw [hr] at hstep
    obtain ⟨pre, c, post, he, he', hall, hlt⟩ := addToCluster_eq_some hr
    exact Or.inl ⟨pre, c, post, he, by rw [hstep, he'], hall, hlt⟩

lemma head?_append_ne {α : Type} (l l' : List α) (h : l ≠ []) :
    (l ++ l').head? = l.head? := by
  cases l with
  | nil => exact absurd rfl h
  | cons a t => rfl

lemma clusterStep_flatten_perm {d : DistFn} {acc : List Cluster} {i : ℕ}
    {s : Step} (h : isLocated s = true) :
    ((clusterStep d acc i s).flatMap Cluster.indices).Perm
      (i :: acc.flatMap Cluster.indices) := by
  obtain ⟨lat, lng, hlat, hlng⟩ := (isLocated_iff s).mp h
  rcases clusterStep_located (d := d) acc (i := i) hlat hlng with
    ⟨pre, c, post, he, he', _, _⟩ | ⟨_, he'⟩
  · rw [he', he, List.flatMap_append, List.flatMap_append, List.flatMap_cons,
      List.flatMap_cons]
    have h1 : ((c.indices ++ [i]) ++ post.flatMap Cluster.indices).Perm
        (i :: (c.indices ++ post.flatMap Cluster.indices)) := by
      have h0 := List.Perm.append_right (post.flatMap Cluster.indices)
        (List.perm_append_singleton i c.indices)
      exact h0
    have h2 : (pre.flatMap Cluster.indices ++
        ((c.indices ++ [i]) ++ post.flatMap Cluster.indices)).Perm
        (i :: (pre.flatMap Cluster.indices ++
          (c.indices ++ post.flatMap Cluster.indices))) :=
      (List.Perm.append_left _ h1).trans List.perm_middle
    simpa using h2
  · rw [he', List.flatMap_append, List.flatMap_cons, List.flatMap_nil,
      List.append_nil]
    exact List.perm_append_singleton i _

lemma clusterStep_length {d : DistFn} {acc : List Cluster} {i : ℕ} {s : Step} :
    (clusterStep d acc i s).length ≤ acc.length + 1 := by
  by_cases h : isLocated s
  · obtain ⟨lat, lng, hlat, hlng⟩ := (isLocated_iff s).mp h
    rcases clusterStep_located (d := d) acc (i := i) hlat hlng with
      ⟨pre, c, post, he, he', _, _⟩ | ⟨_, he'⟩
    · rw [he', he]; simp
    · rw [he']; simp
  · rw [clusterStep_of_unlocated (by simpa using h)]
    omega

lemma sep_iff_map (d : DistFn) (cl : List Cluster) :
    ClusterSep d cl ↔
      (cl.map rep).Pairwise fun x y => ¬ d y.1 y.2 x.1 x.2 < CLUSTER_DISTANCE_KM := by
  rw [ClusterSep, List.pairwise_map]
  exact Iff.rfl

lemma clusterStep_sep {d : DistFn} {acc : List Cluster} {i : ℕ} {s : Step}
    (hs : ClusterSep d acc) : ClusterSep d (clusterStep d acc i s) := by
  by_cases h : isLocated s
  · obtain ⟨lat, lng, hlat, hlng⟩ := (isLocated_iff s).mp h
    rcases clusterStep_located (d := d) acc (i := i) hlat hlng with
      ⟨pre, c, post, he, he', hall, hlt⟩ | ⟨hall, he'⟩
    · have hm : (pre ++ { c with indices := c.indices ++ [i] } :: post).map rep =
          (pre ++ c :: post).map rep := by simp [rep]
      rw [he', sep_iff_map, hm, ← sep_iff_map, ← he]
      exact hs
    · rw [he']
      unfold ClusterSep at hs ⊢
      rw [List.pairwise_append]
      refine ⟨hs, by simp, ?_⟩
      intro a ha b hb
      have hb' : b = ⟨[i], lat, lng⟩ := by simpa using hb
      subst hb'
      exact hall a ha
  · rw [clusterStep_of_unlocated (by simpa using h)]
    exact hs

lemma clusterStep_founded {steps : List Step} {d : DistFn} {acc : List Cluster}
    {i : ℕ} {s : Step} (hget : steps[i]? = some s) (hf : Founded steps acc) :
    Founded steps (clusterStep d acc i s) := by
  by_cases h : isLocated s
  · obtain ⟨lat, lng, hlat, hlng⟩ := (isLocated_iff s).mp h
    rcases clusterStep_located (d := d) acc (i := i) hlat hlng with
      ⟨pre, c, post, he, he', _, _⟩ | ⟨_, he'⟩
    · rw [he']
      intro x hx
      rcases List.mem_append.mp hx with hx | hx
      · exact hf x (he ▸ List.mem_append_left _ hx)
      · rcases List.mem_cons.mp hx with rfl | hx'
        · obtain ⟨i0, r, hi, hs⟩ :=
            hf c (he ▸ List.mem_append_right _ (List.mem_cons_self _ _))
          exact ⟨i0, r ++ [i], by simp [hi], hs⟩
        · exact hf x (he ▸ List.mem_append_right _ (List.mem_cons_of_mem _ hx'))
    · rw [he']
      intro x hx
      rcases List.mem_append.mp hx with hx | hx
      · exact hf x hx
      · have hx' : x = ⟨[i], lat, lng⟩ := by simpa using hx
        subst hx'
        exact ⟨i, [], rfl, s, hget, hlat, hlng⟩
  · rw [clusterStep_of_unlocated (by simpa using h)]
    exact hf

lemma clusterStep_ne {d : DistFn} {acc : List Cluster} {i : ℕ} {s : Step}
    (h : NEIdx acc) : NEIdx (clusterStep d acc i s) := by
  by_cases hl : isLocated s
  · obtain ⟨lat, lng, hlat, hlng⟩ := (isLocated_iff s).mp hl
    rcases clusterStep_located (d := d) acc (i := i) hlat hlng with
      ⟨pre, c, post, he, he', _, _⟩ | ⟨_, he'⟩
    · rw [he']
      intro x hx
      rcases List.mem_append.mp hx with hx | hx
      · exact h x (he ▸ List.mem_append_left _ hx)
      · rcases List.mem_cons.mp hx with rfl | hx'
        · simp
        · exact h x (he ▸ List.mem_append_right _ (List.mem_cons_of_mem _ hx'))
    · rw [he']
      intro x hx
      rcases List.mem_append.mp hx with hx | hx
      · exact h x hx
      · have hx' : x = ⟨[i], lat, lng⟩ := by simpa using hx
        subst hx'
        simp
  · rw [clusterStep_of_unlocated (by simpa using hl)]
    exact h

lemma clusterStep_head {d : DistFn} (acc' : List Cluster) {i : ℕ} {s : Step}
    {c : Cluster} (hne : c.indices ≠ []) :
    ∃ c' rest', clusterStep d (c :: acc') i s = c' :: rest' ∧
      c'.indices.head? = c.indices.head? := by
  by_cases hl : isLocated s
  · obtain ⟨lat, lng, hlat, hlng⟩ := (isLocated_iff s).mp hl
    rcases clusterStep_located (d := d) (c :: acc') (i := i) hlat hlng with
      ⟨pre, c0, post, he, he', _, _⟩ | ⟨_, he'⟩
    · cases pre with
      | nil =>
        rw [List.nil_append] at he he'
        injection he with he1 he2
        subst he1
        subst he2
        exact ⟨_, _, he', by simp [head?_append_ne _ _ hne]⟩
      | cons q pre' =>
        rw [List.cons_append] at he he'
        injection he with he1 he2
        subst he1
        exact ⟨_, _, he', rfl⟩
    · rw [List.cons_append] at he'
      exact ⟨_, _, he', rfl⟩
  · rw [clusterStep_of_unlocated (by simpa using hl)]
    exact ⟨c, acc', rfl, rfl⟩

lemma foldCl_flatten_perm (d : DistFn) (ps : List (ℕ × Step)) : ∀ acc : List Cluster,
    ((foldCl d acc ps).flatMap Cluster.indices).Perm
      (acc.flatMap Cluster.indices ++ (ps.filter fun p => isLocated p.2).map Prod.fst) := by
  induction ps with
  | nil => intro acc; simp [foldCl]
  | cons p rest ih =>
    intro acc
    rw [foldCl_cons]
    by_cases h : isLocated p.2
    · rw [@List.filter_cons_of_pos _ (fun q : ℕ × Step => isLocated q.2) p rest h,
        List.map_cons]
      refine (ih _).trans ?_
      refine (List.Perm.append_right _ (clusterStep_flatten_perm h)).trans ?_
      rw [List.cons_append]
      exact List.Perm.symm List.perm_middle
    · rw [@List.filter_cons_of_neg _ (fun q : ℕ × Step => isLocated q.2) p rest
          (by simpa using h),
        clusterStep_of_unlocated (by simpa using h)]
      exact ih acc

lemma foldCl_length (d : DistFn) (ps : List (ℕ × Step)) : ∀ acc : List Cluster,
    (foldCl d acc ps).length ≤
      acc.length + ((ps.filter fun p => isLocated p.2).map Prod.fst).length := by
  induction ps with
  | nil => intro acc; simp [foldCl]
  | cons p rest ih =>
    intro acc
    rw [foldCl_cons]
    by_cases h : isLocated p.2
    · rw [@List.filter_cons_of_pos _ (fun q : ℕ × Step => isLocated q.2) p rest h,
        List.map_cons, List.length_cons]
      have h1 := ih (clusterStep d acc p.1 p.2)
      have h2 : (clusterStep d acc p.1 p.2).length ≤ acc.length + 1 :=
        clusterStep_length
      omega
    · rw [@List.filter_cons_of_neg _ (fun q : ℕ × Step => isLocated q.2) p rest
          (by simpa using h),
        clusterStep_of_unlocated (by simpa using h)]
      exact ih acc

lemma foldCl_sep (d : DistFn) (ps : List (ℕ × Step)) : ∀ acc : List Cluster,
    ClusterSep d acc → ClusterSep d (foldCl d acc ps) := by
  induction ps with
  | nil => intro acc h; exact h
  | cons p rest ih =>
    intro acc h
    rw [foldCl_cons]
    exact ih _ (clusterStep_sep h)

lemma foldCl_founded (steps : List Step) (d : DistFn) (ps : List (ℕ × Step)) :
    ∀ acc : List Cluster, (∀ p ∈ ps, steps[p.1]? = some p.2) →
      Founded steps acc → Founded steps (foldCl d acc ps) := by
  induction ps with
  | nil => intro acc _ h; exact h
  | cons p rest ih =>
    intro acc hmem h
    rw [foldCl_cons]
    exact ih _ (fun q hq => hmem q (List.mem_cons_of_mem p hq))
      (clusterStep_founded (hmem p (List.mem_cons_self p rest)) h)

lemma foldCl_ne (d : DistFn) (ps : List (ℕ × Step)) : ∀ acc : List Cluster,
    NEIdx acc → NEIdx (foldCl d acc ps) := by
  induction ps with
  | nil => intro acc h; exact h
  | cons p rest ih =>
    intro acc h
    rw [foldCl_cons]
    exact ih _ (clusterStep_ne h)

lemma foldCl_head (d : DistFn) (ps : List (ℕ × Step)) :
    ∀ (c : Cluster) (acc' : List Cluster), NEIdx (c :: acc') →
      ∃ c' rest', foldCl d (c :: acc') ps = c' :: rest' ∧
        c'.indices.head? = c.indices.head? := by
  induction ps with
  | nil => intro c acc' _; exact ⟨c, acc', rfl, rfl⟩
  | cons p rest ih =>
    intro c acc' hne
    rw [foldCl_cons]
    obtain ⟨c1, acc1, hstep, hh⟩ :=
      clusterStep_head (d := d) acc' (i := p.1) (s := p.2)
        (hne c (List.mem_cons_self c acc'))
    rw [hstep]
    obtain ⟨c', rest', hfold, hh'⟩ :=
      ih c1 acc1 (hstep ▸ clusterStep_ne hne)
    exact ⟨c', rest', hfold, hh'.trans hh⟩

lemma foldCl_first (d : DistFn) (ps : List (ℕ × Step)) :
    ∀ i r, (ps.filter fun p => isLocated p.2).map Prod.fst = i :: r →
      ∃ c cs, foldCl d [] ps = c :: cs ∧ c.indices.head? = some i := by
  induction ps with
  | nil => intro i r h; exact absurd h (by simp)
  | cons p rest ih =>
    intro i r h
    by_cases hp : isLocated p.2
    · rw [@List.filter_cons_of_pos _ (fun q : ℕ × Step => isLocated q.2) p rest hp,
        List.map_cons] at h
      injection h with h1 h2
      subst h1
      rw [foldCl_cons]
      obtain ⟨lat, lng, hlat, hlng⟩ := (isLocated_iff p.2).mp hp
      have hstep : clusterStep d [] p.1 p.2 = [⟨[p.1], lat, lng⟩] := by
        rcases clusterStep_located (d := d) [] (i := p.1) hlat hlng with
          ⟨pre, c, post, he, _, _, _⟩ | ⟨_, he'⟩
        · exact absurd he (by simp)
        · simpa using he'
      rw [hstep]
      obtain ⟨c', rest', hf, hh⟩ := foldCl_head d rest ⟨[p.1], lat, lng⟩ []
        (by intro x hx
            have hx' : x = ⟨[p.1], lat, lng⟩ := by simpa using hx
            subst hx'; simp)
      exact ⟨c', rest', hf, by rw [hh]; rfl⟩
    · rw [@List.filter_cons_of_neg _ (fun q : ℕ × Step => isLocated q.2) p rest
          (by simpa using hp)] at h
      rw [foldCl_cons, clusterStep_of_unlocated (by simpa using hp)]
      exact ih i r h

lemma enumFrom_filter_length (steps : List Step) : ∀ n : ℕ,
    ((List.enumFrom n steps).filter fun p => isLocated p.2).length =
      (steps.filter isLocated).length := by
  induction steps with
  | nil => intro n; rfl
  | cons s rest ih =>
    intro n
    rw [List.enumFrom_cons]
    by_cases h : isLocated s
    · rw [@List.filter_cons_of_pos _ (fun q : ℕ × Step => isLocated q.2) (n, s)
          (List.enumFrom (n + 1) rest) h,
        List.filter_cons_of_pos h, List.length_cons, List.length_cons, ih]
    · rw [@List.filter_cons_of_neg _ (fun q : ℕ × Step => isLocated q.2) (n, s)
          (List.enumFrom (n + 1) rest) (by simpa using h),
        List.filter_cons_of_neg (by simpa using h), ih]

lemma locatedIndices_nodup (steps : List Step) : (locatedIndices steps).Nodup := by
  have hsub : (locatedIndices steps).Sublist (steps.enum.map Prod.fst) :=
    List.Sublist.map Prod.fst (List.filter_sublist _)
  rw [List.enum_map_fst] at hsub
  exact List.Nodup.sublist hsub (List.nodup_range _)

lemma foldl_congr_fun {α β : Type} {f g : α → β → α} (h : ∀ a b, f a b = g a b) :
    ∀ (l : List β) (a : α), l.foldl f a = l.foldl g a := by
  intro l
  induction l with
  | nil => intro a; rfl
  | cons b t ih => intro a; rw [List.foldl_cons, List.foldl_cons, h, ih]

lemma addToCluster_eq_findIdx (d : DistFn) (lat lng : ℚ) (i : ℕ) :
    ∀ cl : List Cluster,
      addToCluster d lat lng i cl =
        (cl.findIdx? fun c => decide (d lng lat c.lng c.lat < CLUSTER_DISTANCE_KM)).map
          fun j => cl.modify (fun c => { c with indices := c.indices ++ [i] }) j := by
  intro cl
  induction cl with
  | nil => rfl
  | cons c rest ih =>
    by_cases hd : d lng lat c.lng c.lat < CLUSTER_DISTANCE_KM
    · unfold addToCluster
      rw [if_pos hd, List.findIdx?_cons, if_pos (by simpa using hd)]
      rfl
    · unfold addToCluster
      rw [if_neg hd, List.findIdx?_cons, if_neg (by simpa using hd),
        List.findIdx?_succ, ih]
      rcases hr : rest.findIdx?
          fun c => decide (d lng lat c.lng c.lat < CLUSTER_DISTANCE_KM) with _ | j
      · rw [hr]; rfl
      · rw [hr]; rfl

lemma clusterStep_eq_spec (d : DistFn) (acc : List Cluster) (i : ℕ) (s : Step) :
    clusterStep d acc i s = clusterStepSpec d acc i s := by
  unfold clusterStep clusterStepSpec
  rcases s.lat with _ | lat
  · rfl
  rcases s.lng with _ | lng
  · rfl
  dsimp only
  rw [addToCluster_eq_findIdx]
  rcases h : acc.findIdx?
      fun c => decide (d lng lat c.lng c.lat < CLUSTER_DISTANCE_KM) with _ | j
  · rw [h]; rfl
  · rw [h]; rfl

lemma computeClusters_eq_spec (d : DistFn) (steps : List Step) :
    computeClusters d steps = computeClustersSpec d steps := by
  unfold computeClusters computeClustersSpec
  exact foldl_congr_fun (fun a p => clusterStep_eq_spec d a p.1 p.2) steps.enum []

/-- C4: `extractYear` applies its rules in priority order — the BCE/BC
pattern first (negated year), then the century pattern
(`(century − 1) × 100 + 50`), then a plain 3–4 digit number, all on the
lowercased input — and on the four sample inputs returns −3000, 1850,
1889 and null respectively. -/
theorem extractYear_priority_and_examples :
    (∀ s n, s ≠ "" → matchBCE (lowerChars s) = some n →
      extractYear s = some (-(n : ℤ))) ∧
    (∀ s c, s ≠ "" → matchBCE (lowerChars s) = none →
      matchCentury (lowerChars s) = some c →
      extractYear s = some (((c : ℤ) - 1) * 100 + 50)) ∧
    (∀ s n, s ≠ "" → matchBCE (lowerChars s) = none →
      matchCentury (lowerChars s) = none → matchYear (lowerChars s) = some n →
      extractYear s = some (n : ℤ)) ∧
    extractYear "3000 BCE" = some (-3000) ∧
    extractYear "19th Century" = some 1850 ∧
    extractYear "1889" = some 1889 ∧
    extractYear "no date here" = none := by
  refine ⟨?_, ?_, ?_, by decide, by decide, by decide, by decide⟩
  · intro s n hs h
    unfold extractYear
    rw [if_neg hs, h]
  · intro s c hs h1 h2
    unfold extractYear
    rw [if_neg hs, h1, h2]
  · intro s n hs h1 h2 h3
    unfold extractYear
    rw [if_neg hs, h1, h2, h3]

/-- Witness for C4 at the concrete input `"3000 BCE"`. -/
theorem extractYear_priority_witness : extractYear "3000 BCE" = some (-(3000 : ℤ)) :=
  extractYear_priority_and_examples.1 "3000 BCE" 3000 (by decide) (by decide)

/-- C8: `calculateTimelineSpan` is a total function (it never throws):
the empty list yields a null span with fallback era `"Unknown"`; when the
first and last steps' labels both parse, the span is the absolute
difference with the first label as fallback era; when either fails to
parse, the span is null with the first label as fallback era. -/
theorem calculateTimelineSpan_cases :
    calculateTimelineSpan [] = ⟨none, "Unknown"⟩ ∧
    (∀ (steps : List Step) (first lastS : Step) (f l : ℤ),
      steps.head? = some first → steps.getLast? = some lastS →
      extractYear first.year = some f → extractYear lastS.year = some l →
      calculateTimelineSpan steps = ⟨some |l - f|, first.year⟩) ∧
    (∀ (steps : List Step) (first lastS : Step),
      steps.head? = some first → steps.getLast? = some lastS →
      extractYear first.year = none ∨ extractYear lastS.year = none →
      calculateTimelineSpan steps = ⟨none, first.year⟩) := by
  refine ⟨rfl, ?_, ?_⟩
  · intro steps first lastS f l h1 h2 h3 h4
    unfold calculateTimelineSpan
    rw [h1, h2]
    dsimp only
    rw [h3, h4]
  · intro steps first lastS h1 h2 hor
    unfold calculateTimelineSpan
    rw [h1, h2]
    dsimp only
    rcases hor with h | h
    · rw [h]
    · rw [h]
      rcases extractYear first.year with _ | f <;> rfl

/-- Witness for C8 on the concrete one-step list `[{year := "1850"}]`. -/
theorem calculateTimelineSpan_cases_witness :
    calculateTimelineSpan [⟨"1850", none, none, "", ""⟩] = ⟨some 0, "1850"⟩ :=
  calculateTimelineSpan_cases.2.1 [⟨"1850", none, none, "", ""⟩]
    ⟨"1850", none, none, "", ""⟩ ⟨"1850", none, none, "", ""⟩ 1850 1850
    rfl rfl (by decide) (by decide)

/-- Counterexample to C1 as stated: on the end-to-end scenario list the
timeline span is 4960 (|1960 − (−3000)|, first vs. last step), not 4850;
shown at concrete coordinates and a distance kernel taking value 19950 on
the located pair, so the claim's hypotheses hold while its timeline
conjunct fails. -/
theorem endToEnd_counterexample :
    (fun _ _ _ _ => (19950 : ℚ) : DistFn) 0 0 10 20 = 19950 ∧
    calculateTotalDistance (fun _ _ _ _ => (19950 : ℚ)) (endToEndSteps 0 0 10 20) = 20000 ∧
    countStops (endToEndSteps 0 0 10 20) = 2 ∧
    calculateTimelineSpan (endToEndSteps 0 0 10 20) = ⟨some 4960, "3000 BCE"⟩ ∧
    calculateTimelineSpan (endToEndSteps 0 0 10 20) ≠ ⟨some 4850, "3000 BCE"⟩ := by
  refine ⟨rfl, ?_, by decide, by decide, by decide⟩
  have hp : pairSum (fun _ _ _ _ => (19950 : ℚ))
      ((endToEndSteps 0 0 10 20).filter isLocated) = 19950 := by
    simp [endToEndSteps, isLocated, List.filter_cons, pairSum]
  unfold calculateTotalDistance
  rw [hp]
  norm_num [jsRound]

/-- C1 (amended): on the three-step scenario with the located pair at
distance 19950, `calculateTotalDistance` returns 20000 (rounded to the
nearest 100), `countStops` returns 2, and `calculateTimelineSpan` returns
`{ years := 4960, fallbackEra := "3000 BCE" }`. -/
theorem endToEnd_amended (d : DistFn) (alat alng blat blng : ℚ)
    (h : d alat alng blat blng = 19950) :
    calculateTotalDistance d (endToEndSteps alat alng blat blng) = 20000 ∧
    countStops (endToEndSteps alat alng blat blng) = 2 ∧
    calculateTimelineSpan (endToEndSteps alat alng blat blng) =
      ⟨some 4960, "3000 BCE"⟩ := by
  refine ⟨?_, rfl, ?_⟩
  · have : pairSum d ((endToEndSteps alat alng blat blng).filter isLocated) =
        d alat alng blat blng := by
      simp [endToEndSteps, isLocated, List.filter_cons, pairSum]
    unfold calculateTotalDistance
    rw [this, h]
    norm_num [jsRound]
  · show calculateTimelineSpan
      [⟨"3000 BCE", some alat, some alng, "", ""⟩, ⟨"1850", none, none, "", ""⟩,
       ⟨"1960", some blat, some blng, "", ""⟩] = ⟨some 4960, "3000 BCE"⟩
    unfold calculateTimelineSpan
    have h1 : extractYear "3000 BCE" = some (-3000) := by decide
    have h2 : extractYear "1960" = some 1960 := by decide
    simp [h1, h2]

/-- Witness for C1 (amended) at concrete coordinates and the constant
distance kernel 19950. -/
theorem endToEnd_amended_witness :
    calculateTotalDistance (fun _ _ _ _ => (19950 : ℚ)) (endToEndSteps 0 0 10 20) = 20000 ∧
    countStops (endToEndSteps 0 0 10 20) = 2 ∧
    calculateTimelineSpan (endToEndSteps 0 0 10 20) = ⟨some 4960, "3000 BCE"⟩ :=
  endToEnd_amended (fun _ _ _ _ => (19950 : ℚ)) 0 0 10 20 rfl

/-- C5: `calculateTotalDistance` equals the consecutive-pair distance sum
over the located steps in original order, rounded to the nearest multiple
of 100 (the spec-side `totalDistanceSpec`), and returns 0 whenever at
most one step is located. -/
theorem calculateTotalDistance_spec (d : DistFn) (steps : List Step) :
    calculateTotalDistance d steps = totalDistanceSpec d steps ∧
    (countStops steps ≤ 1 → calculateTotalDistance d steps = 0) := by
  constructor
  · unfold calculateTotalDistance totalDistanceSpec
    rw [locatedCoords_eq, pairSum_eq_adjacentSum d _ (fun s hs => List.of_mem_filter hs)]
  · intro h
    unfold calculateTotalDistance
    rw [pairSum_short d _ h]
    norm_num [jsRound]

/-- Witness for C5 on a concrete two-located-step list (first conjunct)
and a concrete single-located-step list (second conjunct). -/
theorem calculateTotalDistance_spec_witness :
    calculateTotalDistance (fun a b c e => a + b + c + e)
        [⟨"", some 1, some 2, "", ""⟩, ⟨"", none, none, "", ""⟩, ⟨"", some 3, some 4, "", ""⟩] =
      totalDistanceSpec (fun a b c e => a + b + c + e)
        [⟨"", some 1, some 2, "", ""⟩, ⟨"", none, none, "", ""⟩, ⟨"", some 3, some 4, "", ""⟩] ∧
    calculateTotalDistance (fun a b c e => a + b + c + e) [⟨"", some 1, some 2, "", ""⟩] = 0 :=
  ⟨(calculateTotalDistance_spec (fun a b c e => a + b + c + e) _).1,
   (calculateTotalDistance_spec (fun a b c e => a + b + c + e) _).2 (by decide)⟩

/-- C9: inserting a step with both coordinates null at any position
leaves `calculateTotalDistance` unchanged. -/
theorem calculateTotalDistance_insert_unlocated (d : DistFn) (steps : List Step)
    (i : ℕ) (u : Step) (hlat : u.lat = none) (hlng : u.lng = none) :
    calculateTotalDistance d (steps.insertIdx i u) = calculateTotalDistance d steps := by
  have hu : isLocated u = false := by simp [isLocated, hlat, hlng]
  unfold calculateTotalDistance
  rw [filter_insertIdx_of_neg isLocated u hu steps i]

/-- Witness for C9: inserting an unlocated step in the middle of a
concrete two-step list. -/
theorem calculateTotalDistance_insert_unlocated_witness :
    calculateTotalDistance (fun a b c e => a + b + c + e)
        ([⟨"", some 1, some 2, "", ""⟩, ⟨"", some 3, some 4, "", ""⟩].insertIdx 1
          ⟨"x", none, none, "", ""⟩) =
      calculateTotalDistance (fun a b c e => a + b + c + e)
        [⟨"", some 1, some 2, "", ""⟩, ⟨"", some 3, some 4, "", ""⟩] :=
  calculateTotalDistance_insert_unlocated (fun a b c e => a + b + c + e)
    [⟨"", some 1, some 2, "", ""⟩, ⟨"", some 3, some 4, "", ""⟩] 1
    ⟨"x", none, none, "", ""⟩ rfl rfl

/-! ## Claim theorems: GeoClusterer -/

lemma stepToClusterCoord_some {cl : List Cluster} {idx : ℕ} {p : ℚ × ℚ}
    (h : stepToClusterCoord cl idx = some p) :
    ∃ c ∈ cl, idx ∈ c.indices ∧ p = (c.lng, c.lat) := by
  unfold stepToClusterCoord at h
  rcases hf : (cl.flatMap fun c => c.indices.map fun i => (i, (c.lng, c.lat))).reverse.find?
      (fun q => q.1 == idx) with _ | q
  · rw [hf] at h
    exact absurd h (by simp)
  · rw [hf] at h
    have hq := List.mem_of_find?_eq_some hf
    have hpred := List.find?_some hf
    rw [List.mem_reverse, List.mem_flatMap] at hq
    obtain ⟨c, hc, hq⟩ := hq
    rw [List.mem_map] at hq
    obtain ⟨i, hi, hq⟩ := hq
    subst hq
    have hidx : i = idx := by simpa using hpred
    subst hidx
    have hp : p = (c.lng, c.lat) := by
      have : some (c.lng, c.lat) = some p := by simpa using h
      exact (Option.some.injEq _ _ ▸ this).symm
    exact ⟨c, hc, hi, hp⟩

/-- C2: `computeClusters` is the greedy single-pass scan the spec
describes: it equals the spec-side formulation (each located step, in
original order, joins the first cluster in creation order within the
strict 20 km threshold, else founds a new cluster); each cluster's
representative coordinate is the coordinate of its founding step (the
first member index), never updated later; and for two located steps, a
separation of 19.9 joins them in one cluster while 20.1 yields two. -/
theorem computeClusters_greedy (d : DistFn) (steps : List Step) :
    computeClusters d steps = computeClustersSpec d steps ∧
    (∀ c ∈ computeClusters d steps, ∃ i r, c.indices = i :: r ∧
      ∃ s, steps[i]? = some s ∧ s.lat = some c.lat ∧ s.lng = some c.lng) ∧
    (∀ s1 s2 : Step, ∀ lat1 lng1 lat2 lng2 : ℚ,
      s1.lat = some lat1 → s1.lng = some lng1 →
      s2.lat = some lat2 → s2.lng = some lng2 →
      (d lng2 lat2 lng1 lat1 = 199 / 10 →
        computeClusters d [s1, s2] = [⟨[0, 1], lat1, lng1⟩]) ∧
      (d lng2 lat2 lng1 lat1 = 201 / 10 →
        computeClusters d [s1, s2] = [⟨[0], lat1, lng1⟩, ⟨[1], lat2, lng2⟩])) := by
  refine ⟨computeClusters_eq_spec d steps, ?_, ?_⟩
  · exact foldCl_founded steps d steps.enum []
      (fun p hp => List.mem_enum_iff_getElem?.mp hp) (by intro c hc; exact absurd hc (by simp))
  · intro s1 s2 lat1 lng1 lat2 lng2 hlat1 hlng1 hlat2 hlng2
    have h1 : clusterStep d [] 0 s1 = [⟨[0], lat1, lng1⟩] := by
      unfold clusterStep
      rw [hlat1, hlng1]
      rfl
    constructor
    · intro h199
      have hlt : d lng2 lat2 lng1 lat1 < CLUSTER_DISTANCE_KM := by
        rw [h199]; norm_num [CLUSTER_DISTANCE_KM]
      have h2 : clusterStep d [⟨[0], lat1, lng1⟩] 1 s2 = [⟨[0, 1], lat1, lng1⟩] := by
        unfold clusterStep
        rw [hlat2, hlng2]
        dsimp only
        unfold addToCluster
        rw [if_pos hlt]
        rfl
      show foldCl d [] [(0, s1), (1, s2)] = [⟨[0, 1], lat1, lng1⟩]
      rw [foldCl_cons]
      show foldCl d (clusterStep d [] 0 s1) [(1, s2)] = _
      rw [h1, foldCl_cons]
      show clusterStep d [⟨[0], lat1, lng1⟩] 1 s2 = _
      rw [h2]
    · intro h201
      have hge : ¬ d lng2 lat2 lng1 lat1 < CLUSTER_DISTANCE_KM := by
        rw [h201]; norm_num [CLUSTER_DISTANCE_KM]
      have h2 : clusterStep d [⟨[0], lat1, lng1⟩] 1 s2 =
          [⟨[0], lat1, lng1⟩, ⟨[1], lat2, lng2⟩] := by
        unfold clusterStep
        rw [hlat2, hlng2]
        dsimp only
        unfold addToCluster
        rw [if_neg hge]
        rfl
      show foldCl d [] [(0, s1), (1, s2)] = _
      rw [foldCl_cons]
      show foldCl d (clusterStep d [] 0 s1) [(1, s2)] = _
      rw [h1, foldCl_cons]
      show clusterStep d [⟨[0], lat1, lng1⟩] 1 s2 = _
      rw [h2]

/-- Witness for C2: with a constant distance kernel 19.9, two concrete
located steps collapse into one cluster at the first step's coordinates. -/
theorem computeClusters_greedy_witness :
    computeClusters (fun _ _ _ _ => (199 : ℚ) / 10)
      [⟨"", some 1, some 2, "", ""⟩, ⟨"", some 3, some 4, "", ""⟩] = [⟨[0, 1], 1, 2⟩] :=
  ((computeClusters_greedy (fun _ _ _ _ => (199 : ℚ) / 10)
      [⟨"", some 1, some 2, "", ""⟩, ⟨"", some 3, some 4, "", ""⟩]).2.2
    ⟨"", some 1, some 2, "", ""⟩ ⟨"", some 3, some 4, "", ""⟩ 1 2 3 4
    rfl rfl rfl rfl).1 rfl

/-- C3: the clusters partition the located steps — the concatenation of
all member-index lists is a duplicate-free permutation of the located
indices (so each located index is in exactly one cluster and no
unlocated index appears), the cluster count is at most the located-step
count, and the first cluster is founded by the earliest located step. -/
theorem computeClusters_partition (d : DistFn) (steps : List Step) :
    ((computeClusters d steps).flatMap Cluster.indices).Perm (locatedIndices steps) ∧
    ((computeClusters d steps).flatMap Cluster.indices).Nodup ∧
    (∀ i, i ∈ (computeClusters d steps).flatMap Cluster.indices ↔
      i ∈ locatedIndices steps) ∧
    (computeClusters d steps).length ≤ countStops steps ∧
    (∀ i r, locatedIndices steps = i :: r →
      ∃ c cs, computeClusters d steps = c :: cs ∧ ∃ q, c.indices = i :: q) := by
  have hperm : ((computeClusters d steps).flatMap Cluster.indices).Perm
      (locatedIndices steps) := by
    have h := foldCl_flatten_perm d steps.enum []
    simpa [computeClusters_eq_foldCl, locatedIndices] using h
  refine ⟨hperm, hperm.symm.nodup (locatedIndices_nodup steps),
    fun i => hperm.mem_iff, ?_, ?_⟩
  · have hlen := foldCl_length d steps.enum []
    have hcount : ((steps.enum.filter fun p => isLocated p.2)).length =
        countStops steps := enumFrom_filter_length steps 0
    rw [List.length_map] at hlen
    simpa [computeClusters_eq_foldCl, hcount] using hlen
  · intro i r h
    obtain ⟨c, cs, hf, hh⟩ := foldCl_first d steps.enum i r h
    refine ⟨c, cs, hf, ?_⟩
    rcases hind : c.indices with _ | ⟨a, q⟩
    · rw [hind] at hh
      exact absurd hh (by simp)
    · rw [hind] at hh
      have : a = i := by simpa using hh
      subst this
      exact ⟨q, rfl⟩

/-- Witness for C3's conditional conjunct: on a concrete list whose first
located step has index 1, the first cluster's member list starts with 1. -/
theorem computeClusters_partition_witness :
    ∃ c cs, computeClusters (fun _ _ _ _ => (0 : ℚ))
        [⟨"", none, none, "", ""⟩, ⟨"", some 5, some 6, "", ""⟩] = c :: cs ∧
      ∃ q, c.indices = 1 :: q :=
  (computeClusters_partition (fun _ _ _ _ => (0 : ℚ))
    [⟨"", none, none, "", ""⟩, ⟨"", some 5, some 6, "", ""⟩]).2.2.2.2 1 [] (by decide)

/-- C10: for a symmetric distance kernel vanishing below threshold on the
diagonal (as the great-circle distance is), distinct clusters are
pairwise at least the 20 km threshold apart in both directions, their
representative coordinates are pairwise distinct, and therefore equal
route keys can only come from the same cluster: two step indices mapped
by `stepToClusterCoord` to the same coordinate lie in one cluster. -/
theorem computeClusters_separated (d : DistFn)
    (hsym : ∀ a b x y : ℚ, d a b x y = d x y a b)
    (hzero : ∀ a b : ℚ, d a b a b < CLUSTER_DISTANCE_KM) (steps : List Step) :
    (computeClusters d steps).Pairwise (fun c1 c2 =>
      ¬ d c2.lng c2.lat c1.lng c1.lat < CLUSTER_DISTANCE_KM ∧
      ¬ d c1.lng c1.lat c2.lng c2.lat < CLUSTER_DISTANCE_KM ∧
      (c1.lng, c1.lat) ≠ (c2.lng, c2.lat)) ∧
    (∀ i1 i2 p, stepToClusterCoord (computeClusters d steps) i1 = some p →
      stepToClusterCoord (computeClusters d steps) i2 = some p →
      ∃ c ∈ computeClusters d steps, i1 ∈ c.indices ∧ i2 ∈ c.indices) := by
  have hsep : ClusterSep d (computeClusters d steps) :=
    foldCl_sep d steps.enum [] (by simp [ClusterSep])
  have hpair : (computeClusters d steps).Pairwise (fun c1 c2 =>
      ¬ d c2.lng c2.lat c1.lng c1.lat < CLUSTER_DISTANCE_KM ∧
      ¬ d c1.lng c1.lat c2.lng c2.lat < CLUSTER_DISTANCE_KM ∧
      (c1.lng, c1.lat) ≠ (c2.lng, c2.lat)) := by
    refine hsep.imp ?_
    intro c1 c2 h
    refine ⟨h, by rw [hsym]; exact h, ?_⟩
    intro heq
    have h1 : c1.lng = c2.lng := congrArg Prod.fst heq
    have h2 : c1.lat = c2.lat := congrArg Prod.snd heq
    rw [h1, h2] at h
    exact h (hzero _ _)
  refine ⟨hpair, ?_⟩
  intro i1 i2 p h1 h2
  obtain ⟨c1, hc1, hi1, hp1⟩ := stepToClusterCoord_some h1
  obtain ⟨c2, hc2, hi2, hp2⟩ := stepToClusterCoord_some h2
  by_cases hcc : c1 = c2
  · subst hcc
    exact ⟨c1, hc1, hi1, hi2⟩
  · have hsymm : Symmetric (fun c1 c2 : Cluster =>
        ¬ d c2.lng c2.lat c1.lng c1.lat < CLUSTER_DISTANCE_KM ∧
        ¬ d c1.lng c1.lat c2.lng c2.lat < CLUSTER_DISTANCE_KM ∧
        (c1.lng, c1.lat) ≠ (c2.lng, c2.lat)) := by
      intro a b hab
      exact ⟨hab.2.1, hab.1, fun h => hab.2.2 h.symm⟩
    have hr := List.Pairwise.forall hsymm hpair hc1 hc2 hcc
    exact absurd (hp1 ▸ hp2) (by simpa using hr.2.2)

/-- Witness for C10 with the symmetric Manhattan kernel at two concrete
far-apart steps. -/
theorem computeClusters_separated_witness :
    (computeClusters (fun a b x y => |a - x| + |b - y|)
      [⟨"", some 0, some 0, "", ""⟩, ⟨"", some 50, some 50, "", ""⟩]).Pairwise
      (fun c1 c2 =>
        ¬ (fun a b x y : ℚ => |a - x| + |b - y|) c2.lng c2.lat c1.lng c1.lat <
          CLUSTER_DISTANCE_KM ∧
        ¬ (fun a b x y : ℚ => |a - x| + |b - y|) c1.lng c1.lat c2.lng c2.lat <
          CLUSTER_DISTANCE_KM ∧
        (c1.lng, c1.lat) ≠ (c2.lng, c2.lat)) :=
  (computeClusters_separated (fun a b x y => |a - x| + |b - y|)
    (by intro a b x y; simp only []; rw [abs_sub_comm, abs_sub_comm b])
    (by intro a b; simp [CLUSTER_DISTANCE_KM])
    [⟨"", some 0, some 0, "", ""⟩, ⟨"", some 50, some 50, "", ""⟩]).1

/-! ## Supporting definitions and lemmas: RouteBuilder -/

lemma dedupFirst_cons (seen : List (ℚ × ℚ)) (x : ℚ × ℚ) (xs : List (ℚ × ℚ)) :
    dedupFirst seen (x :: xs) =
      if x ∈ seen then dedupFirst seen xs else x :: dedupFirst (x :: seen) xs := rfl

lemma routeCoordsAux_cons (cl : List Cluster) (index : ℕ) (step : Step)
    (rest : List (ℕ × Step)) (seen acc : List (ℚ × ℚ)) :
    routeCoordsAux cl ((index, step) :: rest) seen acc =
      match step.lat, step.lng with
      | some _, some _ =>
        (match stepToClusterCoord cl index with
         | some coord =>
           if coord ∈ seen then routeCoordsAux cl rest seen acc
           else routeCoordsAux cl rest (coord :: seen) (acc ++ [coord])
         | none => routeCoordsAux cl rest seen acc)
      | _, _ => routeCoordsAux cl rest seen acc := rfl

lemma rawCoords_cons (cl : List Cluster) (index : ℕ) (step : Step)
    (rest : List (ℕ × Step)) :
    rawCoords cl ((index, step) :: rest) =
      match step.lat, step.lng with
      | some _, some _ =>
        (match stepToClusterCoord cl index with
         | some coord => coord :: rawCoords cl rest
         | none => rawCoords cl rest)
      | _, _ => rawCoords cl rest := rfl

lemma routeCoordsAux_eq (cl : List Cluster) :
    ∀ (ps : List (ℕ × Step)) (seen acc : List (ℚ × ℚ)),
      routeCoordsAux cl ps seen acc = acc ++ dedupFirst seen (rawCoords cl ps) := by
  intro ps
  induction ps with
  | nil => intro seen acc; simp [routeCoordsAux, rawCoords, dedupFirst]
  | cons p rest ih =>
    intro seen acc
    rcases p with ⟨index, step⟩
    rcases hlat : step.lat with _ | lat <;> rcases hlng : step.lng with _ | lng
    · have ha : routeCoordsAux cl ((index, step) :: rest) seen acc =
          routeCoordsAux cl rest seen acc := by
        rw [routeCoordsAux_cons, hlat, hlng]
      have hr : rawCoords cl ((index, step) :: rest) = rawCoords cl rest := by
        rw [rawCoords_cons, hlat, hlng]
      rw [ha, hr, ih]
    · have ha : routeCoordsAux cl ((index, step) :: rest) seen acc =
          routeCoordsAux cl rest seen acc := by
        rw [routeCoordsAux_cons, hlat, hlng]
      have hr : rawCoords cl ((index, step) :: rest) = rawCoords cl rest := by
        rw [rawCoords_cons, hlat, hlng]
      rw [ha, hr, ih]
    · have ha : routeCoordsAux cl ((index, step) :: rest) seen acc =
          routeCoordsAux cl rest seen acc := by
        rw [routeCoordsAux_cons, hlat, hlng]
      have hr : rawCoords cl ((index, step) :: rest) = rawCoords cl rest := by
        rw [rawCoords_cons, hlat, hlng]
      rw [ha, hr, ih]
    · rcases hc : stepToClusterCoord cl index with _ | coord
      · have ha : routeCoordsAux cl ((index, step) :: rest) seen acc =
            routeCoordsAux cl rest seen acc := by
          rw [routeCoordsAux_cons, hlat, hlng]
          try dsimp only
          rw [hc]
        have hr : rawCoords cl ((index, step) :: rest) = rawCoords cl rest := by
          rw [rawCoords_cons, hlat, hlng]
          try dsimp only
          rw [hc]
        rw [ha, hr, ih]
      · have hr : rawCoords cl ((index, step) :: rest) =
            coord :: rawCoords cl rest := by
          rw [rawCoords_cons, hlat, hlng]
          try dsimp only
          rw [hc]
        by_cases hmem : coord ∈ seen
        · have ha : routeCoordsAux cl ((index, step) :: rest) seen acc =
              routeCoordsAux cl rest seen acc := by
            rw [routeCoordsAux_cons, hlat, hlng]
            try dsimp only
            rw [hc]
            try dsimp only
            rw [if_pos hmem]
          rw [ha, hr, ih, dedupFirst_cons, if_pos hmem]
        · have ha : routeCoordsAux cl ((index, step) :: rest) seen acc =
              routeCoordsAux cl rest (coord :: seen) (acc ++ [coord]) := by
            rw [routeCoordsAux_cons, hlat, hlng]
            try dsimp only
            rw [hc]
            try dsimp only
            rw [if_neg hmem]
          rw [ha, hr, ih, dedupFirst_cons, if_neg hmem, List.append_assoc]
          rfl

lemma routeCoordinates_eq (d : DistFn) (steps : List Step) :
    routeCoordinates d steps = dedupFirst [] (rawRouteCoords d steps) := by
  unfold routeCoordinates rawRouteCoords
  rw [routeCoordsAux_eq]
  rfl

lemma dedupFirst_sub : ∀ (l seen : List (ℚ × ℚ)) (x : ℚ × ℚ),
    x ∈ dedupFirst seen l → x ∈ l := by
  intro l
  induction l with
  | nil => intro seen x h; exact absurd h (by simp [dedupFirst])
  | cons y ys ih =>
    intro seen x h
    rw [dedupFirst] at h
    by_cases hy : y ∈ seen
    · rw [if_pos hy] at h
      exact List.mem_cons_of_mem y (ih seen x h)
    · rw [if_neg hy] at h
      rcases List.mem_cons.mp h with rfl | h'
      · exact List.mem_cons_self x ys
      · exact List.mem_cons_of_mem y (ih _ x h')

lemma dedupFirst_not_seen : ∀ (l seen : List (ℚ × ℚ)) (x : ℚ × ℚ),
    x ∈ dedupFirst seen l → x ∉ seen := by
  intro l
  induction l with
  | nil => intro seen x h; exact absurd h (by simp [dedupFirst])
  | cons y ys ih =>
    intro seen x h
    rw [dedupFirst] at h
    by_cases hy : y ∈ seen
    · rw [if_pos hy] at h
      exact ih seen x h
    · rw [if_neg hy] at h
      rcases List.mem_cons.mp h with rfl | h'
      · exact hy
      · intro hx
        exact ih _ x h' (List.mem_cons_of_mem y hx)

lemma dedupFirst_nodup : ∀ (l seen : List (ℚ × ℚ)), (dedupFirst seen l).Nodup := by
  intro l
  induction l with
  | nil => intro seen; simp [dedupFirst]
  | cons y ys ih =>
    intro seen
    rw [dedupFirst]
    by_cases hy : y ∈ seen
    · rw [if_pos hy]
      exact ih seen
    · rw [if_neg hy]
      rw [List.nodup_cons]
      refine ⟨?_, ih _⟩
      intro hmem
      exact dedupFirst_not_seen ys (y :: seen) y hmem (List.mem_cons_self y seen)

lemma dedupFirst_nil_of_seen : ∀ (l seen : List (ℚ × ℚ)),
    (∀ x ∈ l, x ∈ seen) → dedupFirst seen l = [] := by
  intro l
  induction l with
  | nil => intro seen _; rfl
  | cons y ys ih =>
    intro seen hall
    rw [dedupFirst, if_pos (hall y (List.mem_cons_self y ys))]
    exact ih seen fun x hx => hall x (List.mem_cons_of_mem y hx)

lemma dedupFirst_const_length (p : ℚ × ℚ) : ∀ (l seen : List (ℚ × ℚ)),
    (∀ x ∈ l, x = p) → (dedupFirst seen l).length ≤ 1 := by
  intro l
  induction l with
  | nil => intro seen _; simp [dedupFirst]
  | cons y ys ih =>
    intro seen hall
    rw [dedupFirst]
    by_cases hy : y ∈ seen
    · rw [if_pos hy]
      exact ih seen fun x hx => hall x (List.mem_cons_of_mem y hx)
    · rw [if_neg hy]
      have hys : dedupFirst (y :: seen) ys = [] := by
        refine dedupFirst_nil_of_seen ys (y :: seen) ?_
        intro x hx
        rw [hall x (List.mem_cons_of_mem y hx), ← hall y (List.mem_cons_self y ys)]
        exact List.mem_cons_self y seen
      rw [hys]
      simp

lemma rawCoords_mem {cl : List Cluster} : ∀ {ps : List (ℕ × Step)} {x : ℚ × ℚ},
    x ∈ rawCoords cl ps → ∃ c ∈ cl, x = (c.lng, c.lat) := by
  intro ps
  induction ps with
  | nil => intro x h; exact absurd h (by simp [rawCoords])
  | cons p rest ih =>
    rcases p with ⟨index, step⟩
    intro x h
    rcases hlat : step.lat with _ | lat <;> rcases hlng : step.lng with _ | lng
    · rw [show rawCoords cl ((index, step) :: rest) = rawCoords cl rest from by
        rw [rawCoords_cons, hlat, hlng]] at h
      exact ih h
    · rw [show rawCoords cl ((index, step) :: rest) = rawCoords cl rest from by
        rw [rawCoords_cons, hlat, hlng]] at h
      exact ih h
    · rw [show rawCoords cl ((index, step) :: rest) = rawCoords cl rest from by
        rw [rawCoords_cons, hlat, hlng]] at h
      exact ih h
    · rcases hc : stepToClusterCoord cl index with _ | coord
      · rw [show rawCoords cl ((index, step) :: rest) = rawCoords cl rest from by
          rw [rawCoords_cons, hlat, hlng]
          try dsimp only
          rw [hc]] at h
        exact ih h
      · rw [show rawCoords cl ((index, step) :: rest) =
            coord :: rawCoords cl rest from by
          rw [rawCoords_cons, hlat, hlng]
          try dsimp only
          rw [hc]] at h
        rcases List.mem_cons.mp h with rfl | h'
        · obtain ⟨c, hcm, _, hp⟩ := stepToClusterCoord_some hc
          exact ⟨c, hcm, hp⟩
        · exact ih h'

lemma buildArcs_none {interp : InterpFn} : ∀ {coords : List (ℚ × ℚ)} {a b : ℚ × ℚ},
    (a, b) ∈ coords.zip coords.tail → interp a b = none →
    buildArcs interp coords = none := by
  intro coords
  induction coords with
  | nil => intro a b h _; exact absurd h (by simp)
  | cons x rest ih =>
    intro a b h hfail
    cases rest with
    | nil => exact absurd h (by simp)
    | cons y rest' =>
      rcases List.mem_cons.mp h with heq | h'
      · have hx : x = a := (congrArg Prod.fst heq).symm
        have hy : y = b := (congrArg Prod.snd heq).symm
        subst hx
        subst hy
        unfold buildArcs
        rw [hfail]
        rfl
      · have hrec : buildArcs interp (y :: rest') = none := ih h' hfail
        unfold buildArcs
        rcases hxy : interp x y with _ | arc
        · rfl
        · cases rest' with
          | nil => exact absurd h' (by simp)
          | cons z rest'' =>
            rw [hrec]
            rfl

/-! ## Claim theorems: RouteBuilder -/

/-- C6: the pre-interpolation coordinate list is the first-occurrence
deduplication of the walked cluster coordinates (each exact coordinate
pair emitted only when not seen before, in order of first appearance), so
it has no duplicates at all — in particular no two consecutive identical
points — and every entry is some cluster's representative; when the
clusters collapse to a single one the list has length at most 1 and the
geometry is the uninterpolated list for every interpolation routine. -/
theorem routeCoordinates_dedup (d : DistFn) (steps : List Step) :
    routeCoordinates d steps = dedupFirst [] (rawRouteCoords d steps) ∧
    (routeCoordinates d steps).Nodup ∧
    (routeCoordinates d steps).Chain' (· ≠ ·) ∧
    (∀ p ∈ routeCoordinates d steps, ∃ c ∈ computeClusters d steps,
      p = (c.lng, c.lat)) ∧
    (∀ c : Cluster, computeClusters d steps = [c] →
      (routeCoordinates d steps).length ≤ 1 ∧
      ∀ interp : InterpFn,
        updateRouteGeometry interp d steps = routeCoordinates d steps) := by
  have heq := routeCoordinates_eq d steps
  have hnodup : (routeCoordinates d steps).Nodup := by
    rw [heq]
    exact dedupFirst_nodup _ _
  refine ⟨heq, hnodup, List.Pairwise.chain' hnodup, ?_, ?_⟩
  · intro p hp
    rw [heq] at hp
    exact rawCoords_mem (dedupFirst_sub _ _ _ hp)
  · intro c hc
    have hlen : (routeCoordinates d steps).length ≤ 1 := by
      rw [heq]
      refine dedupFirst_const_length (c.lng, c.lat) _ _ ?_
      intro x hx
      obtain ⟨c', hc', hx'⟩ :=
        rawCoords_mem (show x ∈ rawCoords (computeClusters d steps) steps.enum from hx)
      rw [hc] at hc'
      have : c' = c := by simpa using hc'
      rw [hx', this]
    refine ⟨hlen, ?_⟩
    intro interp
    unfold updateRouteGeometry
    rw [if_neg (by omega)]

/-- Witness for C6's conditional conjunct: two concrete co-located steps
collapse to one cluster and yield a route of at most one point with no
interpolation applied. -/
theorem routeCoordinates_dedup_witness :
    (routeCoordinates (fun _ _ _ _ => (0 : ℚ))
      [⟨"", some 1, some 2, "", ""⟩, ⟨"", some 1, some 2, "", ""⟩]).length ≤ 1 ∧
    ∀ interp : InterpFn,
      updateRouteGeometry interp (fun _ _ _ _ => (0 : ℚ))
          [⟨"", some 1, some 2, "", ""⟩, ⟨"", some 1, some 2, "", ""⟩] =
        routeCoordinates (fun _ _ _ _ => (0 : ℚ))
          [⟨"", some 1, some 2, "", ""⟩, ⟨"", some 1, some 2, "", ""⟩] :=
  (routeCoordinates_dedup (fun _ _ _ _ => (0 : ℚ))
    [⟨"", some 1, some 2, "", ""⟩, ⟨"", some 1, some 2, "", ""⟩]).2.2.2.2
    ⟨[0, 1], 1, 2⟩ (by decide)

/-- C7: if the interpolation routine fails on any consecutive pair of the
deduplicated coordinate list, the emitted geometry is exactly the
uninterpolated straight coordinate list (the error is caught; the
function is total and never propagates it). -/
theorem updateRoute_fallback (interp : InterpFn) (d : DistFn) (steps : List Step)
    (a b : ℚ × ℚ)
    (hmem : (a, b) ∈ (routeCoordinates d steps).zip (routeCoordinates d steps).tail)
    (hfail : interp a b = none) :
    updateRouteGeometry interp d steps = routeCoordinates d steps := by
  unfold updateRouteGeometry
  by_cases hlen : (routeCoordinates d steps).length ≥ 2
  · rw [if_pos hlen, buildArcs_none hmem hfail]
  · rw [if_neg hlen]

/-- Witness for C7: two concrete far-apart steps and an interpolation
routine that always fails; the geometry equals the straight list. -/
theorem updateRoute_fallback_witness :
    updateRouteGeometry (fun _ _ => none) (fun _ _ _ _ => (100 : ℚ))
        [⟨"", some 1, some 2, "", ""⟩, ⟨"", some 3, some 4, "", ""⟩] =
      routeCoordinates (fun _ _ _ _ => (100 : ℚ))
        [⟨"", some 1, some 2, "", ""⟩, ⟨"", some 3, some 4, "", ""⟩] :=
  updateRoute_fallback (fun _ _ => none) (fun _ _ _ _ => (100 : ℚ))
    [⟨"", some 1, some 2, "", ""⟩, ⟨"", some 3, some 4, "", ""⟩]
    (2, 1) (4, 3) (by decide) rfl
